import Mathlib

/-!
Verification of the heap-file layer (heapFiles/heapfile.cpp).

A shallow embedding of the heap-file layer of the storage engine:
`createHeapFile`, the `HeapFile` handle, `HeapFileScan`
(`startScan`, `scanNext`, `markScan`, `resetScan`, `endScan`, `matchRec`)
and `InsertFileScan::insertRecord`, together with models of the external
collaborators (buffer manager, page layer, database/file layer) that the
source file `heapFiles/heapfile.cpp` calls into.  The collaborators are not
part of the source tree; their operations are modelled from the
specification's §6 "External interfaces" and carry doc comments saying so.

C++ `int` values are modelled as `Int`; where the source performs 32-bit
machine arithmetic (the unsigned cast in `insertRecord`, the `int`
subtraction in `matchRec`) the wrap-around is made explicit with `% 2^32`.
Bytes are `Nat` values reduced `% 256` at use sites.
-/

namespace HeapFileM

/-- The status codes exchanged with the collaborators (spec §6: "OK,
FILEEXISTS, FILEEOF, BADSCANPARM, INVALIDRECLEN, NOSPACE, NORECORDS,
ENDOFPAGE, BADPAGEPTR, and pass-through I/O errors").  `INVALIDSLOTNO` is
the page layer's rejection of a bad slot; `UNIXERR` stands for a
pass-through I/O error. -/
inductive Status where
  | OK
  | FILEEXISTS
  | FILEEOF
  | BADSCANPARM
  | INVALIDRECLEN
  | NOSPACE
  | NORECORDS
  | ENDOFPAGE
  | BADPAGEPTR
  | INVALIDSLOTNO
  | UNIXERR
deriving DecidableEq, Repr

open Status

/-- A record identifier: `(pageNo, slotNo)`, both C++ `int`s. -/
structure RID where
  pageNo : Int
  slotNo : Int
deriving DecidableEq, Repr

/-- The sentinel RID `(-1, -1)`. -/
def NULLRID : RID := ⟨-1, -1⟩

/-- A record as seen by the heap layer: a pointer into a page body plus a
length.  `data` is the byte sequence at the pointer; `length` is the C++
`int` length field. -/
structure Record where
  data : List Nat
  length : Int
deriving DecidableEq, Repr

/-- The `Datatype` enum value `STRING` (the enum's underlying integer codes;
only distinctness of the three values matters). -/
def STRING : Int := 0

/-- The `Datatype` enum value `INTEGER`. -/
def INTEGER : Int := 1

/-- The `Datatype` enum value `FLOAT`. -/
def FLOAT : Int := 2

/-- The `Operator` enum value `LT`.  The six comparison operators are modelled
by their underlying integer codes; only distinctness matters. -/
def opLT : Int := 0

/-- The `Operator` enum value `LTE`. -/
def opLTE : Int := 1

/-- The `Operator` enum value `EQ`. -/
def opEQ : Int := 2

/-- The `Operator` enum value `GTE`. -/
def opGTE : Int := 3

/-- The `Operator` enum value `GT`. -/
def opGT : Int := 4

/-- The `Operator` enum value `NE`. -/
def opNE : Int := 5

/-- Little-endian value of a byte list (each byte reduced `% 256`),
as produced by `memcpy` into an integer object. -/
def natLE : List Nat → Nat
  | [] => 0
  | b :: rest => b % 256 + 256 * natLE rest

/-- Reinterpret a `Nat` as a two's-complement signed 32-bit value. -/
def toInt32 (n : Nat) : Int :=
  if n % 2 ^ 32 < 2 ^ 31 then ((n % 2 ^ 32 : Nat) : Int)
  else ((n % 2 ^ 32 : Nat) : Int) - 2 ^ 32

/-- Wrap an integer into the signed 32-bit range, as C++ `int` arithmetic
does on overflow. -/
def wrap32 (z : Int) : Int := (z + 2 ^ 31) % 2 ^ 32 - 2 ^ 31

/-- The signed 32-bit integer read by `memcpy(&iattr, p, 4)` from the four
bytes at `p`. -/
def int32LE (bs : List Nat) : Int := toInt32 (natLE bs)

/-- C `strncmp(a, b, n)`: compare at most `n` bytes as unsigned chars,
stopping at the first difference or at a common NUL byte.  Bytes beyond
the modelled memory are taken to be NUL. -/
def strncmpM : Nat → List Nat → List Nat → Int
  | 0, _, _ => 0
  | n + 1, a, b =>
    let x := a.headD 0 % 256
    let y := b.headD 0 % 256
    if x ≠ y then (x : Int) - (y : Int)
    else if x = 0 then 0
    else strncmpM n a.tail b.tail

/-- Plain lexicographic comparison of exactly `n` bytes, not stopping at
NUL.  This follows the claim's words ("sign-preserving lexicographic byte
comparison"), for comparison against the source's `strncmp`. -/
def lexCmpBytes : Nat → List Nat → List Nat → Int
  | 0, _, _ => 0
  | n + 1, a, b =>
    let x := a.headD 0 % 256
    let y := b.headD 0 % 256
    if x ≠ y then (x : Int) - (y : Int)
    else lexCmpBytes n a.tail b.tail

/-- The final `switch(op)` of `matchRec`: does `diff` satisfy `op` relative
to zero?  An unknown operator code falls through to `return false`. -/
def opSat (op : Int) (diff : Int) : Bool :=
  if op = opLT then diff < 0
  else if op = opLTE then diff ≤ 0
  else if op = opEQ then diff = 0
  else if op = opGTE then diff ≥ 0
  else if op = opGT then diff > 0
  else if op = opNE then diff ≠ 0
  else false

/-- The predicate-filter fields of a `HeapFileScan`: `filter` (NULL pointer
modelled as `none`, otherwise the bytes at the filter pointer), `offset`,
`length`, `type`, `op`. -/
structure PredState where
  filter : Option (List Nat)
  offset : Int
  length : Int
  type : Int
  op : Int
deriving DecidableEq, Repr

/-- The method `HeapFileScan::matchRec(rec)`.  The INTEGER branch copies 4 bytes into
each `int` (`startScan` pins `length` to `sizeof(int) = 4` for INTEGER)
and subtracts in C++ `int` arithmetic, hence `wrap32`; the result is then
converted to `float`, which preserves sign and zero-ness exactly, so the
branch is modelled by the wrapped integer difference.  The FLOAT branch
performs IEEE single-precision subtraction, which is outside this
embedding; it is abstracted by the parameter `fsub`, a sign-valued stand-in
for `fattr - ffltr` (NaN outcomes are not representable).  The STRING
branch is `strncmp`.  An unmatched `type` code leaves `diff = 0`. -/
def matchRec (fsub : List Nat → List Nat → Int) (s : PredState) (rec : Record) : Bool :=
  match s.filter with
  | none => true
  | some fbytes =>
    if s.offset + s.length - 1 ≥ rec.length then false
    else
      let window := rec.data.drop s.offset.toNat
      let diff : Int :=
        if s.type = INTEGER then
          wrap32 (int32LE (window.take 4) - int32LE (fbytes.take 4))
        else if s.type = FLOAT then fsub (window.take 4) (fbytes.take 4)
        else if s.type = STRING then strncmpM s.length.toNat window fbytes
        else 0
      opSat s.op diff

/-- The claim's reading of `matchRec`: INTEGER compared in exact integer
arithmetic, STRING by plain lexicographic byte comparison of the whole
window.  Written from the claim's words, to be compared with the source's
`matchRec`. -/
def matchRecSpec (fsub : List Nat → List Nat → Int) (s : PredState) (rec : Record) : Bool :=
  match s.filter with
  | none => true
  | some fbytes =>
    if s.offset + s.length - 1 ≥ rec.length then false
    else
      let window := rec.data.drop s.offset.toNat
      let diff : Int :=
        if s.type = INTEGER then
          int32LE (window.take 4) - int32LE (fbytes.take 4)
        else if s.type = FLOAT then fsub (window.take 4) (fbytes.take 4)
        else if s.type = STRING then lexCmpBytes s.length.toNat window fbytes
        else 0
      opSat s.op diff

/-- The method `HeapFileScan::startScan`.  A NULL `filter_` clears the internal filter
and returns OK without looking at the other arguments; otherwise the
parameters are validated (`sizeof(int) = sizeof(float) = 4`) and either
`BADSCANPARM` is returned with the state untouched, or all five fields are
stored. -/
def startScan (s : PredState) (offset_ length_ : Int) (type_ : Int)
    (filter_ : Option (List Nat)) (op_ : Int) : Status × PredState :=
  if filter_.isNone then (OK, { s with filter := none })
  else if (offset_ < 0 ∨ length_ < 1) ∨
      (type_ ≠ STRING ∧ type_ ≠ INTEGER ∧ type_ ≠ FLOAT) ∨
      ((type_ = INTEGER ∧ length_ ≠ 4) ∨ (type_ = FLOAT ∧ length_ ≠ 4)) ∨
      (op_ ≠ opLT ∧ op_ ≠ opLTE ∧ op_ ≠ opEQ ∧ op_ ≠ opGTE ∧ op_ ≠ opGT ∧ op_ ≠ opNE) then
    (BADSCANPARM, s)
  else
    (OK, { filter := filter_, offset := offset_, length := length_, type := type_, op := op_ })

/-! ## The page layer and buffer-visible effects

`page.cpp` is not part of the source tree; the `Page` operations below are
modelled from the spec (§6 "External interfaces"): `init(pageNo)`,
`getNextPage`/`setNextPage`, `firstRecord` (or `NORECORDS`),
`nextRecord(prev)` (or `ENDOFPAGE`), `getRecord(rid)`, `insertRecord`
(or `NOSPACE`).  A page is a slot directory (slot number = list index,
`none` = tombstoned slot) plus the `nextPage` link.  "No record" outcomes
are modelled with `Option`/`Except`. -/

/-- A data page: slot directory plus the chain link. -/
structure Page where
  slots : List (Option Record)
  nextPage : Int
deriving DecidableEq, Repr

/-- Modelled from the spec: `Page::init(pageNo)` produces an empty page
whose `nextPage` link is `-1` (end of chain).  The page records its own
number internally; in this model the store key carries it. -/
def Page.initPage (_pageNo : Int) : Page := { slots := [], nextPage := -1 }

/-- Index of the first occupied slot at or after position `i`. -/
def firstOccupied : List (Option Record) → Nat → Option Nat
  | [], _ => none
  | some _ :: _, i => some i
  | none :: rest, i => firstOccupied rest (i + 1)

/-- Modelled from the spec: `Page::firstRecord` — the RID of the first
occupied slot, or `none` (the source's `NORECORDS`).  The page stamps its
own page number into the RID; `selfNo` is that number. -/
def Page.firstRecordOpt (p : Page) (selfNo : Int) : Option RID :=
  (firstOccupied p.slots 0).map fun i => ⟨selfNo, (i : Int)⟩

/-- Modelled from the spec: `Page::nextRecord(cur)` — the RID of the first
occupied slot after `cur.slotNo`, or `none` (the source's `ENDOFPAGE`). -/
def Page.nextRecordOpt (p : Page) (selfNo : Int) (cur : RID) : Option RID :=
  let start := (cur.slotNo + 1).toNat
  (firstOccupied (p.slots.drop start) start).map fun i => ⟨selfNo, (i : Int)⟩

/-- Modelled from the spec: `Page::getRecord(rid)` — the record in slot
`rid.slotNo`, or `INVALIDSLOTNO` when the slot number is out of range or
tombstoned.  Like the source page layer, it does not cross-check
`rid.pageNo`. -/
def Page.getRecordOpt (p : Page) (rid : RID) : Except Status Record :=
  if 0 ≤ rid.slotNo then
    match p.slots.getD rid.slotNo.toNat none with
    | some r => Except.ok r
    | none => Except.error INVALIDSLOTNO
  else Except.error INVALIDSLOTNO

/-- Bytes consumed on the page by the slotted records (tombstones keep
their space: deleted slots are not re-packed). -/
def Page.usedSpace (p : Page) : Nat :=
  (p.slots.map fun s => (s.map fun r => r.length.toNat).getD 0).sum

/-- Modelled from the spec: `Page::insertRecord(rec)` — appends a slot when
the record fits in the remaining space (`cap = PAGESIZE - DPFIXED` is the
usable bytes of an empty data page), otherwise `none` (the source's
`NOSPACE`).  Returns the new page and the slot number. -/
def Page.insertRec (cap : Nat) (p : Page) (rec : Record) : Option (Page × Nat) :=
  if p.usedSpace + rec.length.toNat ≤ cap then
    some ({ p with slots := p.slots ++ [some rec] }, p.slots.length)
  else none

/-- A buffer-manager call observable from the heap layer: the events the
source emits through `bufMgr` and `db.closeFile`. -/
inductive Ev where
  | unpin (pageNo : Int) (dirty : Bool)
  | read (pageNo : Int)
  | alloc (pageNo : Int)
  | close
deriving DecidableEq, Repr

/-- The data pages of the open file, keyed by page number. -/
def lookupPage : List (Int × Page) → Int → Option Page
  | [], _ => none
  | (k, p) :: rest, n => if k = n then some p else lookupPage rest n

/-- Replace the page stored under key `n` (the in-place mutation of a
pinned page object, seen through the store). -/
def updatePage : List (Int × Page) → Int → Page → List (Int × Page)
  | [], _, _ => []
  | (k, p) :: rest, n, q =>
    if k = n then (n, q) :: updatePage rest n q else (k, p) :: updatePage rest n q

/-- The `FileHdrPage` metadata fields. -/
structure FileHdr where
  firstPage : Int
  lastPage : Int
  pageCnt : Int
  recCnt : Int
deriving DecidableEq, Repr

/-- The full state of an open `HeapFileScan`/`InsertFileScan` handle
together with the data pages of its file: the protected members of
`HeapFile` (`headerPage` contents as `hdr`, `headerPageNo`, `curPage`
presence, `curPageNo`, `curRec`, the two dirty flags), the scan members
(`filter` state, `markedPageNo`, `markedRec`), the file's data-page store
and the allocator's next page number. -/
structure HFS where
  store : List (Int × Page)
  nextPageNo : Int
  hdr : FileHdr
  headerPageNo : Int
  curPagePresent : Bool
  curPageNo : Int
  curRec : RID
  curDirtyFlag : Bool
  hdrDirtyFlag : Bool
  markedPageNo : Int
  markedRec : RID
  pred : PredState
deriving DecidableEq, Repr

/-- The handle state right after `createHeapFile` + the `HeapFile`
constructor on the fresh file: header page 1 pinned, the single empty data
page 2 pinned as current, `curRec = NULLRID`, both dirty flags false,
filter cleared (the `HeapFileScan` constructor sets `filter = NULL`). -/
def initialHFS : HFS :=
  { store := [(2, Page.initPage 2)]
    nextPageNo := 3
    hdr := ⟨2, 2, 1, 0⟩
    headerPageNo := 1
    curPagePresent := true
    curPageNo := 2
    curRec := NULLRID
    curDirtyFlag := false
    hdrDirtyFlag := false
    markedPageNo := 0
    markedRec := NULLRID
    pred := ⟨none, 0, 0, 0, 0⟩ }

/-- Result of a heap-layer operation: returned status, post-state, the
output RID when one was written, and the buffer calls made. -/
structure OpRes where
  status : Status
  st : HFS
  out : Option RID
  evs : List Ev
deriving DecidableEq, Repr

/-- The method `HeapFileScan::endScan`: unpin the current data page (with the
accumulated `curDirtyFlag`) and clear the current-page fields. -/
def endScan (st : HFS) : OpRes :=
  if st.curPagePresent then
    { status := OK
      st := { st with curPagePresent := false, curPageNo := 0, curDirtyFlag := false }
      out := none
      evs := [Ev.unpin st.curPageNo st.curDirtyFlag] }
  else { status := OK, st := st, out := none, evs := [] }

/-- The method `HeapFileScan::markScan`: snapshot `(curPageNo, curRec)`. -/
def markScan (st : HFS) : OpRes :=
  { status := OK
    st := { st with markedPageNo := st.curPageNo, markedRec := st.curRec }
    out := none
    evs := [] }

/-- The method `HeapFileScan::resetScan`: when the marked page differs from the
current page, unpin the current page (if pinned, with `curDirtyFlag`),
restore `curPageNo`/`curRec` from the snapshot, re-read the marked page and
clear `curDirtyFlag`; otherwise only restore `curRec`.  `errRead` is the
status the buffer manager produces when asked for a page the file does not
have. -/
def resetScan (errRead : Status) (st : HFS) : OpRes :=
  if st.markedPageNo ≠ st.curPageNo then
    let evs0 := if st.curPagePresent then [Ev.unpin st.curPageNo st.curDirtyFlag] else []
    let st1 := { st with curPageNo := st.markedPageNo, curRec := st.markedRec }
    match lookupPage st.store st.markedPageNo with
    | none => { status := errRead, st := st1, out := none, evs := evs0 ++ [Ev.read st.markedPageNo] }
    | some _ =>
      { status := OK
        st := { st1 with curPagePresent := true, curDirtyFlag := false }
        out := none
        evs := evs0 ++ [Ev.read st.markedPageNo] }
  else { status := OK, st := { st with curRec := st.markedRec }, out := none, evs := [] }

/-- One iteration of `scanNext`'s do-while loop either finishes with a
result or continues with an advanced cursor. -/
inductive StepOut where
  | done (r : OpRes)
  | next (st : HFS) (evs : List Ev)
deriving DecidableEq, Repr

/-- The shared tail of every path through the `scanNext` loop body, after a
tentative RID `tmp` has been obtained on page `p`: materialize the record
**at the pre-advance `curRec`** (the one-argument `HeapFileScan::getRecord`
reads `curRec`, and `curRec = tmpRid` happens only afterwards), set
`curRec := tmpRid`, and test the predicate on the materialized record;
on a match return OK with `outRid = curRec`, otherwise loop. -/
def scanStep (fsub : List Nat → List Nat → Int)
    (st' : HFS) (evs' : List Ev) (p : Page) (tmp : RID) : StepOut :=
  match p.getRecordOpt st'.curRec with
  | Except.error e => StepOut.done ⟨e, st', none, evs'⟩
  | Except.ok rec =>
    let st2 := { st' with curRec := tmp }
    if matchRec fsub st'.pred rec then StepOut.done ⟨OK, st2, some st2.curRec, evs'⟩
    else StepOut.next st2 evs'

/-- One iteration of the `scanNext` loop body, faithful to the source:
obtain a tentative RID by `firstRecord` (when `curRec` is `NULLRID`, with a
failure turned into `FILEEOF`) or `nextRecord`; on `ENDOFPAGE` unpin the
current page, follow the `nextPage` link (with no `-1` check and without
clearing `curDirtyFlag`), read that page (propagating a read failure
unchanged) and take its first record (failure again `FILEEOF`); then run
`scanStep`. -/
def scanNextIter (fsub : List Nat → List Nat → Int) (errRead : Status)
    (st : HFS) (evs : List Ev) : StepOut :=
  if st.curPagePresent = false then StepOut.done ⟨BADPAGEPTR, st, none, evs⟩
  else
    match lookupPage st.store st.curPageNo with
    | none => StepOut.done ⟨BADPAGEPTR, st, none, evs⟩
    | some p =>
      if st.curRec = NULLRID then
        match p.firstRecordOpt st.curPageNo with
        | none => StepOut.done ⟨FILEEOF, st, none, evs⟩
        | some tmp => scanStep fsub st evs p tmp
      else
        match p.nextRecordOpt st.curPageNo st.curRec with
        | some tmp => scanStep fsub st evs p tmp
        | none =>
          let evs1 := evs ++ [Ev.unpin st.curPageNo st.curDirtyFlag]
          let newNo := p.nextPage
          let st1 := { st with curPageNo := newNo }
          match lookupPage st.store newNo with
          | none => StepOut.done ⟨errRead, st1, none, evs1 ++ [Ev.read newNo]⟩
          | some p2 =>
            let evs2 := evs1 ++ [Ev.read newNo]
            match p2.firstRecordOpt newNo with
            | none => StepOut.done ⟨FILEEOF, st1, none, evs2⟩
            | some tmp => scanStep fsub st1 evs2 p2 tmp

/-- The method `HeapFileScan::scanNext(outRid)`: iterate `scanNextIter` until a result
is produced.  `fuel` bounds the number of loop iterations; `none` means the
bound was exhausted, never a source outcome. -/
def scanNextF (fsub : List Nat → List Nat → Int) (errRead : Status) :
    Nat → HFS → List Ev → Option OpRes
  | 0, _, _ => none
  | fuel + 1, st, evs =>
    match scanNextIter fsub errRead st evs with
    | StepOut.done r => some r
    | StepOut.next st2 evs2 => scanNextF fsub errRead fuel st2 evs2

/-- The unsigned reinterpretation `(unsigned int) z` of a C++ `int` value `z`. -/
def uint32 (z : Int) : Nat := (z % (2 ^ 32 : Int)).toNat

/-- The part of `InsertFileScan::insertRecord` after the "at this point
curPage should always be the last page" comment: try the page-level insert
on the current page; on `NOSPACE` allocate a fresh page, `init` it, link
the old page's `nextPage` to it, unpin the old page with the accumulated
`curDirtyFlag` (which does **not** account for the `setNextPage` mutation
just performed), make the new page current (clean) and retry (a retry
failure is returned as-is, before the header is updated), then update
`lastPage`/`pageCnt`/`hdrDirtyFlag`; on any successful insert set
`curDirtyFlag := true`, increment `recCnt` (the source does not set
`hdrDirtyFlag` here) and set `curRec = outRid`. -/
def insertAtLast (cap : Nat) (st1 : HFS) (evs : List Ev) (rec : Record) : OpRes :=
  match lookupPage st1.store st1.curPageNo with
  | none => ⟨BADPAGEPTR, st1, none, evs⟩
  | some p =>
    match p.insertRec cap rec with
    | some (p2, slot) =>
      let rid : RID := ⟨st1.curPageNo, (slot : Int)⟩
      ⟨OK,
        { st1 with store := updatePage st1.store st1.curPageNo p2
                   curDirtyFlag := true
                   hdr := { st1.hdr with recCnt := st1.hdr.recCnt + 1 }
                   curRec := rid },
        some rid, evs⟩
    | none =>
      let newNo := st1.nextPageNo
      let evs2 := evs ++ [Ev.alloc newNo]
      let pInit := Page.initPage newNo
      let storeB := updatePage ((newNo, pInit) :: st1.store) st1.curPageNo
        { p with nextPage := newNo }
      let evs3 := evs2 ++ [Ev.unpin st1.curPageNo st1.curDirtyFlag]
      let stA := { st1 with store := storeB, nextPageNo := st1.nextPageNo + 1
                            curPageNo := newNo, curPagePresent := true
                            curDirtyFlag := false }
      match pInit.insertRec cap rec with
      | none => ⟨NOSPACE, stA, none, evs3⟩
      | some (p2, slot) =>
        let rid : RID := ⟨newNo, (slot : Int)⟩
        ⟨OK,
          { stA with store := updatePage stA.store newNo p2
                     hdr := { stA.hdr with lastPage := newNo
                                           pageCnt := stA.hdr.pageCnt + 1
                                           recCnt := stA.hdr.recCnt + 1 }
                     hdrDirtyFlag := true
                     curDirtyFlag := true
                     curRec := rid },
          some rid, evs3⟩

/-- The method `InsertFileScan::insertRecord(rec, outRid)`, with `cap = PAGESIZE -
DPFIXED`: reject oversized records via the unsigned comparison
`(unsigned int) rec.length > PAGESIZE - DPFIXED` before touching any page;
reposition to the last page if necessary (unpin current with
`curDirtyFlag`, read `headerPage->lastPage`, clear the flag; a read failure
is returned unchanged); then `insertAtLast`. -/
def insertRecord (errRead : Status) (cap : Nat) (st : HFS) (rec : Record) : OpRes :=
  if uint32 rec.length > cap then ⟨INVALIDRECLEN, st, none, []⟩
  else if st.curPageNo ≠ st.hdr.lastPage then
    match lookupPage st.store st.hdr.lastPage with
    | none =>
      ⟨errRead, st, none,
        [Ev.unpin st.curPageNo st.curDirtyFlag, Ev.read st.hdr.lastPage]⟩
    | some _ =>
      insertAtLast cap
        { st with curPageNo := st.hdr.lastPage, curPagePresent := true
                  curDirtyFlag := false }
        [Ev.unpin st.curPageNo st.curDirtyFlag, Ev.read st.hdr.lastPage] rec
  else insertAtLast cap st [] rec

/-- The destructor `HeapFile::~HeapFile` as its sequence of buffer calls: if a data page
is pinned, unpin it with the accumulated `curDirtyFlag`; unpin the header
page with `hdrDirtyFlag`; close the file.  Errors are logged, never
propagated. -/
def heapFileDtor (st : HFS) : List Ev :=
  (if st.curPagePresent then [Ev.unpin st.curPageNo st.curDirtyFlag] else [])
    ++ [Ev.unpin st.headerPageNo st.hdrDirtyFlag, Ev.close]

/-- The destructor `InsertFileScan::~InsertFileScan` followed by the base `~HeapFile`: the
derived destructor unpins the pinned data page **with `dirty = true`
unconditionally** (source line 461) and nulls the current-page fields, so
the base destructor then only unpins the header page and closes. -/
def insertFileScanDtor (st : HFS) : List Ev :=
  if st.curPagePresent then
    Ev.unpin st.curPageNo true :: heapFileDtor { st with curPagePresent := false, curPageNo := 0 }
  else heapFileDtor st

/-! ## `createHeapFile`, status-propagation view (for error handling)

The collaborators' outcomes are inputs: `CreateEnv` fixes the status each
buffer-pool / disk-layer call would return, and `createHeapFileEnv` mirrors
the source's control flow over them, also reporting which calls were made.
The second `allocPage` (source line 30) has its status discarded. -/

/-- The statuses the eight collaborator calls of `createHeapFile` would
return, in source order: the probing `openFile`, `createFile`, the second
`openFile`, `allocPage` for the header, `allocPage` for the data page,
`unPinPage` for the header, `unPinPage` for the data page, `closeFile`. -/
structure CreateEnv where
  open1 : Status
  create : Status
  open2 : Status
  allocHdr : Status
  allocData : Status
  unpinHdr : Status
  unpinData : Status
  close : Status
deriving DecidableEq, Repr

/-- A collaborator call made by `createHeapFile`. -/
inductive CCall where
  | openFile
  | createFile
  | allocPage
  | unpinPage
  | closeFile
deriving DecidableEq, Repr

/-- The function `createHeapFile(fileName)` as status propagation: which status it
returns and which collaborator calls it makes, given the outcomes in
`env`.  Faithful to the source: if the probing open succeeds, return
`FILEEXISTS`; each later status is checked and returned on failure —
except the second `allocPage`, whose status the source discards. -/
def createHeapFileEnv (env : CreateEnv) : Status × List CCall :=
  if env.open1 = OK then (FILEEXISTS, [CCall.openFile])
  else if env.create ≠ OK then (env.create, [CCall.openFile, CCall.createFile])
  else if env.open2 ≠ OK then
    (env.open2, [CCall.openFile, CCall.createFile, CCall.openFile])
  else if env.allocHdr ≠ OK then
    (env.allocHdr, [CCall.openFile, CCall.createFile, CCall.openFile, CCall.allocPage])
  else if env.unpinHdr ≠ OK then
    (env.unpinHdr, [CCall.openFile, CCall.createFile, CCall.openFile, CCall.allocPage,
      CCall.allocPage, CCall.unpinPage])
  else if env.unpinData ≠ OK then
    (env.unpinData, [CCall.openFile, CCall.createFile, CCall.openFile, CCall.allocPage,
      CCall.allocPage, CCall.unpinPage, CCall.unpinPage])
  else
    (env.close, [CCall.openFile, CCall.createFile, CCall.openFile, CCall.allocPage,
      CCall.allocPage, CCall.unpinPage, CCall.unpinPage, CCall.closeFile])

/-! ## `createHeapFile`, file-system view (for side effects)

A small model of the database/file layer's state — modelled from the spec
(§6): files keyed by name, and the multiset of open handles the layer is
tracking.  `openFile` on an existing file hands out a handle; `closeFile`
returns one.  Collaborator calls are assumed to succeed here (their error
statuses are the subject of `createHeapFileEnv`). -/

/-- The pages and header of one on-disk heap file. -/
structure FileData where
  pages : List (Int × Page)
  hdr : Option FileHdr
  nextPageNo : Int
deriving DecidableEq, Repr

/-- The database/file layer's state: named files and open handles. -/
structure FS where
  files : List (String × FileData)
  handles : List String
deriving DecidableEq, Repr

/-- Association-list lookup for files by name. -/
def lookupFile : List (String × FileData) → String → Option FileData
  | [], _ => none
  | (k, d) :: rest, n => if k = n then some d else lookupFile rest n

/-- Modelled from the spec: `DB::openFile(name)` — succeeds exactly when a
file of that name exists, handing the caller an open handle the layer now
tracks; otherwise a pass-through I/O error. -/
def openFileFS (fs : FS) (name : String) : Status × FS :=
  match lookupFile fs.files name with
  | some _ => (OK, { fs with handles := name :: fs.handles })
  | none => (UNIXERR, fs)

/-- The function `createHeapFile(fileName)` over the file-system state.  The probing
`openFile` succeeds on an existing file, and the source then returns
`FILEEXISTS` **without closing the handle it just opened**.  Otherwise the
creation path (createFile, openFile, two allocPage calls, header
initialization, two unpins, closeFile — all succeeding here) nets to: a new
file whose header page 1 carries `firstPage = lastPage = 2`, `pageCnt = 1`,
`recCnt = 0`, with the single empty data page 2; its handle is closed
again. -/
def createHeapFileFS (fs : FS) (name : String) : Status × FS :=
  match openFileFS fs name with
  | (OK, fs1) => (FILEEXISTS, fs1)
  | (_, _) =>
    let fd : FileData := { pages := [(2, Page.initPage 2)], hdr := some ⟨2, 2, 1, 0⟩,
                           nextPageNo := 3 }
    (OK, { fs with files := (name, fd) :: fs.files })

/-! ## The page-chain invariant (claim C4) -/

/-- The predicate `isChainB store s l`: `l` is the chain of page numbers starting at
`s`, each page looked up in `store`, each page's `nextPage` naming its
successor, and the final page's `nextPage` being `-1`. -/
def isChainB (store : List (Int × Page)) : Int → List Int → Bool
  | _, [] => false
  | s, n :: rest =>
    decide (s = n) &&
      (match lookupPage store n with
       | none => false
       | some p =>
         match rest with
         | [] => decide (p.nextPage = -1)
         | m :: _ => decide (p.nextPage = m) && isChainB store m rest)

/-- The invariant of claim C4: `pageCnt` equals the length of the chain of
data pages that starts at `firstPage`, follows `nextPage` links and ends at
`lastPage`, whose `nextPage` is `-1`. -/
def pageChainOK (st : HFS) : Prop :=
  ∃ l : List Int, isChainB st.store st.hdr.firstPage l = true ∧
    (l.length : Int) = st.hdr.pageCnt ∧ l.getLast? = some st.hdr.lastPage

/-- Strengthened induction invariant: the chain additionally has no
repeated page and every stored page number is below the allocator's next
page number (pages handed out by `allocPage` are fresh). -/
def chainInv (st : HFS) : Prop :=
  (∃ l : List Int, isChainB st.store st.hdr.firstPage l = true ∧
      (l.length : Int) = st.hdr.pageCnt ∧ l.getLast? = some st.hdr.lastPage ∧ l.Nodup) ∧
    ∀ kp ∈ st.store, kp.1 < st.nextPageNo

/-- Handle states reachable from `createHeapFile` (the fresh-file state
`initialHFS`) by successful `insertRecord` calls. -/
inductive Reach (e : Status) (cap : Nat) : HFS → Prop
  | init : Reach e cap initialHFS
  | insert (st : HFS) (rec : Record) : Reach e cap st →
      (insertRecord e cap st rec).status = OK →
      Reach e cap (insertRecord e cap st rec).st

/-- The method `HeapFileScan::startScan` over the whole handle state: the method
assigns only the five predicate fields, so the cursor and everything else
is carried through unchanged. -/
def startScanH (st : HFS) (offset_ length_ type_ : Int)
    (filter_ : Option (List Nat)) (op_ : Int) : Status × HFS :=
  let r := startScan st.pred offset_ length_ type_ filter_ op_
  (r.1, { st with pred := r.2 })

/-- The claim's list of `startScan` parameter violations, written from the
claim's words (offset negative; length below 1; unknown type; numeric type
with the wrong width, `sizeof(int) = sizeof(float) = 4`; unknown
operator), for comparison with the source's grouping of the same tests. -/
def badScanParmSpec (offset_ length_ type_ op_ : Int) : Prop :=
  offset_ < 0 ∨ length_ < 1 ∨
    (type_ ≠ STRING ∧ type_ ≠ INTEGER ∧ type_ ≠ FLOAT) ∨
    (type_ = INTEGER ∧ length_ ≠ 4) ∨ (type_ = FLOAT ∧ length_ ≠ 4) ∨
    (op_ ≠ opLT ∧ op_ ≠ opLTE ∧ op_ ≠ opEQ ∧ op_ ≠ opGTE ∧ op_ ≠ opGT ∧ op_ ≠ opNE)

/-! ## Concrete fixtures used by the counterexamples and witnesses -/

/-- A fixed stand-in for the abstracted FLOAT subtraction. -/
def fsub0 : List Nat → List Nat → Int := fun _ _ => 0

/-- A three-byte record. -/
def recOne : Record := ⟨[1, 2, 3], 3⟩

/-- A last data page holding just `recOne`. -/
def pgOne : Page := { slots := [some recOne], nextPage := -1 }

/-- A fresh wildcard scan (cursor `NULLRID`) over a one-record file. -/
def stScanFresh : HFS := { initialHFS with store := [(2, pgOne)] }

/-- The same file with the cursor on the last record of the last page. -/
def stAtEnd : HFS := { initialHFS with store := [(2, pgOne)], curRec := ⟨2, 0⟩ }

/-- One-byte record with byte 5. -/
def recFive : Record := ⟨[5], 1⟩

/-- One-byte record with byte 9. -/
def recNine : Record := ⟨[9], 1⟩

/-- A page holding `recFive` then `recNine`. -/
def pgTwo : Page := { slots := [some recFive, some recNine], nextPage := -1 }

/-- A STRING/EQ filter matching exactly the byte 5. -/
def psEqFive : PredState := ⟨some [5], 0, 1, STRING, opEQ⟩

/-- A scan over `pgTwo` with filter `psEqFive` whose cursor sits on slot 0
(`recFive`, the record just returned) and which has marked that
position. -/
def stMarked : HFS :=
  { initialHFS with store := [(2, pgTwo)], curRec := ⟨2, 0⟩, pred := psEqFive
                    markedPageNo := 2, markedRec := ⟨2, 0⟩ }

/-- INTEGER/GT filter whose stored bytes decode to `-1`. -/
def psIntC : PredState := ⟨some [255, 255, 255, 255], 0, 4, INTEGER, opGT⟩

/-- A record whose 4-byte window decodes to `2147483647` (`INT_MAX`). -/
def recIntC : Record := ⟨[255, 255, 255, 127], 4⟩

/-- STRING/NE filter with bytes `97, 0, 121` (a NUL inside the window). -/
def psStrC : PredState := ⟨some [97, 0, 121], 0, 3, STRING, opNE⟩

/-- A record with bytes `97, 0, 120`: equal to the filter up to the NUL,
different after it. -/
def recStrC : Record := ⟨[97, 0, 120], 3⟩

/-- A file-layer state already containing a file named `f`, no handles
open. -/
def fsExist : FS := { files := [("f", ⟨[], none, 1⟩)], handles := [] }

/-- A clean scan whose mark sits on a different page, so `resetScan` must
unpin the current page. -/
def stResetW : HFS := { stScanFresh with markedPageNo := 5, markedRec := ⟨5, 0⟩ }

/-! ## Helper lemmas -/

theorem lookupPage_cons (k : Int) (p : Page) (store : List (Int × Page)) (n : Int) :
    lookupPage ((k, p) :: store) n = if k = n then some p else lookupPage store n := rfl

theorem lookupPage_update_self (store : List (Int × Page)) (n : Int) (q : Page)
    (h : (lookupPage store n).isSome) :
    lookupPage (updatePage store n q) n = some q := by
  induction store with
  | nil => simp [lookupPage] at h
  | cons e rest ih =>
    obtain ⟨k, p⟩ := e
    by_cases hk : k = n
    · subst hk
      simp [lookupPage, updatePage]
    · simp only [lookupPage, if_neg hk] at h
      simp [updatePage, lookupPage, hk, ih h]

theorem lookupPage_update_ne (store : List (Int × Page)) (k n : Int) (q : Page)
    (h : k ≠ n) :
    lookupPage (updatePage store k q) n = lookupPage store n := by
  induction store with
  | nil => simp [lookupPage, updatePage]
  | cons e rest ih =>
    obtain ⟨k2, p⟩ := e
    by_cases hk : k2 = k
    · subst hk
      simp [lookupPage, updatePage, h, ih]
    · simp [lookupPage, updatePage, hk, ih]

theorem lookupPage_mem (store : List (Int × Page)) (n : Int) (p : Page)
    (h : lookupPage store n = some p) : (n, p) ∈ store := by
  induction store with
  | nil => simp [lookupPage] at h
  | cons e rest ih =>
    obtain ⟨k, p2⟩ := e
    by_cases hk : k = n
    · subst hk
      simp only [lookupPage] at h
      simp at h
      subst h
      exact List.mem_cons_self _ _
    · simp only [lookupPage, if_neg hk] at h
      exact List.mem_cons_of_mem _ (ih h)

theorem mem_updatePage_keys (store : List (Int × Page)) (k : Int) (q : Page) :
    ∀ e ∈ updatePage store k q, ∃ e0 ∈ store, e.1 = e0.1 := by
  induction store with
  | nil => intro e he; simp [updatePage] at he
  | cons e2 rest ih =>
    obtain ⟨k2, p⟩ := e2
    intro e he
    by_cases hk : k2 = k
    · simp only [updatePage, if_pos hk, List.mem_cons] at he
      rcases he with rfl | he
      · exact ⟨(k2, p), List.mem_cons_self _ _, by simp [hk]⟩
      · obtain ⟨e0, he0, hk0⟩ := ih e he
        exact ⟨e0, List.mem_cons_of_mem _ he0, hk0⟩
    · simp only [updatePage, if_neg hk, List.mem_cons] at he
      rcases he with rfl | he
      · exact ⟨(k2, p), List.mem_cons_self _ _, rfl⟩
      · obtain ⟨e0, he0, hk0⟩ := ih e he
        exact ⟨e0, List.mem_cons_of_mem _ he0, hk0⟩

theorem mem_of_getLast?M {α : Type} {l : List α} {a : α} (h : l.getLast? = some a) :
    a ∈ l := by
  induction l with
  | nil => simp at h
  | cons x rest ih =>
    cases rest with
    | nil => simp_all
    | cons y rest2 =>
      rw [List.getLast?_cons_cons] at h
      exact List.mem_cons_of_mem _ (ih h)

theorem wrap32_eq_self (z : Int) (h1 : -2 ^ 31 ≤ z) (h2 : z < 2 ^ 31) :
    wrap32 z = z := by
  unfold wrap32
  have h3 : (z + 2 ^ 31) % 2 ^ 32 = z + 2 ^ 31 := Int.emod_eq_of_lt (by omega) (by omega)
  omega

/-! ## Claim theorems and counterexamples -/

/-- C1: the claim is the intended behavior, but the code diverges
(code bug).  In `scanNext` the record materialized and passed to
`matchRec` is the one at the **pre-advance** `curRec` (the one-argument
`getRecord` of source line 368 reads `curRec`; `curRec = tmpRid` happens
only at line 299, afterwards), not the record at the tentative RID.
Evaluated at the failing input — a fresh wildcard scan (curRec = NULLRID)
over a file whose first page holds one record — the tentative RID `(2,0)`
is obtained and its record matches, yet `scanNext` materializes slot `-1`
and returns the page layer's invalid-slot status instead of OK. -/
theorem scanNext_materializes_previous_curRec :
    stScanFresh.curRec = NULLRID ∧
    pgOne.firstRecordOpt 2 = some ⟨2, 0⟩ ∧
    matchRec fsub0 stScanFresh.pred recOne = true ∧
    scanNextF fsub0 Status.BADPAGEPTR 5 stScanFresh [] =
      some ⟨Status.INVALIDSLOTNO, stScanFresh, none, []⟩ := by decide

/-- C6: the `resetScan` mechanics hold (same-page reset restores exactly
`curRec`), but the resumed scan does not return "the first matching record
strictly after `markedRec`" (code bug, the same slip as C1): with a filter
matching only the marked record `recFive`, the `scanNext` after `resetScan`
returns OK with the RID `(2,1)` of `recNine` — which does **not** match —
because the predicate is evaluated on the record at the pre-advance
cursor. -/
theorem resetScan_resume_evaluates_marked_record :
    matchRec fsub0 psEqFive recFive = true ∧
    matchRec fsub0 psEqFive recNine = false ∧
    resetScan Status.BADPAGEPTR stMarked =
      ⟨Status.OK, { stMarked with curRec := ⟨2, 0⟩ }, none, []⟩ ∧
    (scanNextF fsub0 Status.BADPAGEPTR 5 (resetScan Status.BADPAGEPTR stMarked).st []).map
        (fun r => (r.status, r.out)) = some (Status.OK, some (⟨2, 1⟩ : RID)) := by decide

/-- C2 counterexample: with the probing open failing and every collaborator
call succeeding except the second `allocPage`, `createHeapFile` still
returns OK — the source (line 30) discards that call's status. -/
theorem createHeapFile_second_alloc_status_dropped :
    (⟨UNIXERR, OK, OK, OK, UNIXERR, OK, OK, OK⟩ : CreateEnv).allocData ≠ OK ∧
    createHeapFileEnv ⟨UNIXERR, OK, OK, OK, UNIXERR, OK, OK, OK⟩ =
      (OK, [CCall.openFile, CCall.createFile, CCall.openFile, CCall.allocPage,
        CCall.allocPage, CCall.unpinPage, CCall.unpinPage, CCall.closeFile]) := by decide

/-- C3 counterexample: a freshly opened `InsertFileScan` (current page
pinned, `curDirtyFlag = false`, nothing mutated) is destroyed; its
destructor unpins the data page with `dirty = true`, not with the
accumulated flag. -/
theorem insertFileScanDtor_unpins_dirty_unconditionally :
    initialHFS.curPagePresent = true ∧ initialHFS.curDirtyFlag = false ∧
    insertFileScanDtor initialHFS = [Ev.unpin 2 true, Ev.unpin 1 false, Ev.close] := by decide

/-- C5 counterexample: (i) INTEGER window `INT_MAX` against filter `-1`
under GT: the exact difference `2^31` is positive, but the source's C++
`int` subtraction wraps to a negative value, so `matchRec` answers false
where the claim's exact-arithmetic reading answers true; (ii) STRING
windows `97,0,120` vs `97,0,121` under NE: the bytes differ, but `strncmp`
stops at the common NUL and reports equality, so `matchRec` answers false
where the claim's whole-window lexicographic reading answers true. -/
theorem matchRec_wraps_and_stops_at_nul :
    matchRec fsub0 psIntC recIntC = false ∧ matchRecSpec fsub0 psIntC recIntC = true ∧
    matchRec fsub0 psStrC recStrC = false ∧ matchRecSpec fsub0 psStrC recStrC = true := by
  decide

/-- C7 counterexample: a record of length `-1` does not exceed
`PAGESIZE - DPFIXED` (here 1004), yet `insertRecord` returns
`INVALIDRECLEN`, because the source compares `(unsigned int) rec.length`,
which turns `-1` into `2^32 - 1`. -/
theorem insertRecord_rejects_negative_length :
    (insertRecord Status.BADPAGEPTR 1004 initialHFS ⟨[], -1⟩).status = Status.INVALIDRECLEN ∧
    ¬ ((-1 : Int) > (1004 : Int)) := by decide

/-- C8 counterexample: `createHeapFile` on an existing file returns
`FILEEXISTS` and leaves the file's contents alone, but it is not free of
side effects: the handle opened by the existence probe is never closed, so
the file layer's open-handle state has changed. -/
theorem createHeapFile_FILEEXISTS_leaks_handle :
    (createHeapFileFS fsExist "f").1 = Status.FILEEXISTS ∧
    (createHeapFileFS fsExist "f").2.files = fsExist.files ∧
    (createHeapFileFS fsExist "f").2.handles ≠ fsExist.handles := by decide

/-- The post-reposition part of `insertRecord` can only report a bad page
pointer, success, or `NOSPACE`. -/
theorem insertAtLast_status (cap : Nat) (st1 : HFS) (evs : List Ev) (rec : Record) :
    (insertAtLast cap st1 evs rec).status = Status.BADPAGEPTR ∨
    (insertAtLast cap st1 evs rec).status = Status.OK ∨
    (insertAtLast cap st1 evs rec).status = Status.NOSPACE := by
  unfold insertAtLast
  rcases h1 : lookupPage st1.store st1.curPageNo with _ | p
  · simp
  · rcases h2 : Page.insertRec cap p rec with _ | pr
    · rcases h3 : Page.insertRec cap (Page.initPage st1.nextPageNo) rec with _ | pr2 <;>
        simp [h2, h3]
    · simp [h2]

/-- C2 amended: with the probing open failing, every collaborator status is
propagated immediately in source order — except the second `allocPage`,
whose status the result does not depend on at all; the call lists show the
function stops at the first checked failure. -/
theorem createHeapFile_error_propagation (env : CreateEnv) (h : env.open1 ≠ OK) :
    (createHeapFileEnv env).1 =
      (if env.create ≠ OK then env.create
       else if env.open2 ≠ OK then env.open2
       else if env.allocHdr ≠ OK then env.allocHdr
       else if env.unpinHdr ≠ OK then env.unpinHdr
       else if env.unpinData ≠ OK then env.unpinData
       else env.close) ∧
    (∀ x, createHeapFileEnv { env with allocData := x } = createHeapFileEnv env) ∧
    (env.create ≠ OK → (createHeapFileEnv env).2 = [CCall.openFile, CCall.createFile]) ∧
    (env.create = OK → env.open2 ≠ OK →
      (createHeapFileEnv env).2 = [CCall.openFile, CCall.createFile, CCall.openFile]) ∧
    (env.create = OK → env.open2 = OK → env.allocHdr ≠ OK →
      (createHeapFileEnv env).2 =
        [CCall.openFile, CCall.createFile, CCall.openFile, CCall.allocPage]) := by
  refine ⟨?_, ?_, ?_, ?_, ?_⟩
  · simp only [createHeapFileEnv, if_neg h]
    split_ifs <;> rfl
  · intro x; rfl
  · intro h1; simp [createHeapFileEnv, h, h1]
  · intro h1 h2; simp [createHeapFileEnv, h, h1, h2]
  · intro h1 h2 h3; simp [createHeapFileEnv, h, h1, h2, h3]

/-- C2 witness: a failing `createFile` is returned immediately. -/
theorem createHeapFile_error_propagation_witness :
    (createHeapFileEnv ⟨UNIXERR, UNIXERR, OK, OK, OK, OK, OK, OK⟩).1 = UNIXERR ∧
    (createHeapFileEnv ⟨UNIXERR, UNIXERR, OK, OK, OK, OK, OK, OK⟩).2 =
      [CCall.openFile, CCall.createFile] := by
  have h := createHeapFile_error_propagation ⟨UNIXERR, UNIXERR, OK, OK, OK, OK, OK, OK⟩
    (by decide)
  exact ⟨by rw [h.1]; decide, h.2.2.1 (by decide)⟩

/-- C7 amended: `insertRecord` returns `INVALIDRECLEN` exactly when
`(unsigned int) rec.length` exceeds `PAGESIZE - DPFIXED` (= `cap`); the
rejection happens before any page is touched (no buffer call, state
unchanged); for nonnegative `int` lengths the test coincides with
`rec.length > cap`, and a record of length exactly `cap` is never rejected
with `INVALIDRECLEN`. -/
theorem insertRecord_INVALIDRECLEN_iff (e : Status) (cap : Nat) (st : HFS) (rec : Record)
    (he : e ≠ Status.INVALIDRECLEN) :
    ((insertRecord e cap st rec).status = Status.INVALIDRECLEN ↔ uint32 rec.length > cap) ∧
    (uint32 rec.length > cap →
      insertRecord e cap st rec = ⟨Status.INVALIDRECLEN, st, none, []⟩) ∧
    (0 ≤ rec.length → rec.length < 2 ^ 31 →
      ((insertRecord e cap st rec).status = Status.INVALIDRECLEN ↔ (cap : Int) < rec.length)) ∧
    ((rec.length : Int) = (cap : Int) →
      (insertRecord e cap st rec).status ≠ Status.INVALIDRECLEN) := by
  have key : ¬ uint32 rec.length > cap →
      (insertRecord e cap st rec).status ≠ Status.INVALIDRECLEN := by
    intro hn
    simp only [insertRecord, if_neg hn]
    by_cases h2 : st.curPageNo ≠ st.hdr.lastPage
    · rw [if_pos h2]
      rcases h3 : lookupPage st.store st.hdr.lastPage with _ | pL
      · simp [he]
      · rcases insertAtLast_status cap
            { st with curPageNo := st.hdr.lastPage, curPagePresent := true, curDirtyFlag := false }
            [Ev.unpin st.curPageNo st.curDirtyFlag, Ev.read st.hdr.lastPage] rec with
          hs | hs | hs <;> simp [hs]
    · rw [if_neg h2]
      rcases insertAtLast_status cap st [] rec with hs | hs | hs <;> simp [hs]
  have hiff : (insertRecord e cap st rec).status = Status.INVALIDRECLEN ↔
      uint32 rec.length > cap := by
    constructor
    · intro hI
      by_contra hn
      exact key hn hI
    · intro hg
      simp [insertRecord, if_pos hg]
  refine ⟨hiff, ?_, ?_, ?_⟩
  · intro hg
    simp [insertRecord, if_pos hg]
  · intro h0 h31
    rw [hiff]
    unfold uint32
    rw [Int.emod_eq_of_lt h0 (by omega)]
    omega
  · intro hceq hI
    rw [hiff] at hI
    unfold uint32 at hI
    omega

/-- C7 witness: at `cap = 1004`, a 1005-byte record is rejected with
`INVALIDRECLEN` before any buffer call, and a 1004-byte record is not
rejected with `INVALIDRECLEN`. -/
theorem insertRecord_INVALIDRECLEN_iff_witness :
    insertRecord Status.BADPAGEPTR 1004 initialHFS ⟨[], 1005⟩ =
      ⟨Status.INVALIDRECLEN, initialHFS, none, []⟩ ∧
    (insertRecord Status.BADPAGEPTR 1004 initialHFS ⟨[], 1004⟩).status ≠
      Status.INVALIDRECLEN := by
  have h1 := insertRecord_INVALIDRECLEN_iff Status.BADPAGEPTR 1004 initialHFS ⟨[], 1005⟩
    (by decide)
  have h2 := insertRecord_INVALIDRECLEN_iff Status.BADPAGEPTR 1004 initialHFS ⟨[], 1004⟩
    (by decide)
  exact ⟨h1.2.1 (by decide), h2.2.2.2 (by decide)⟩

/-- C8 amended: on an existing file `createHeapFile` returns `FILEEXISTS`
with the file contents untouched, but the probe's open handle stays
open. -/
theorem createHeapFile_FILEEXISTS_behavior (fs : FS) (name : String)
    (h : (lookupFile fs.files name).isSome) :
    createHeapFileFS fs name = (Status.FILEEXISTS, { fs with handles := name :: fs.handles }) := by
  unfold createHeapFileFS openFileFS
  rcases hx : lookupFile fs.files name with _ | fd
  · rw [hx] at h; simp at h
  · rfl

/-- C8 witness. -/
theorem createHeapFile_FILEEXISTS_behavior_witness :
    createHeapFileFS fsExist "f" = (Status.FILEEXISTS, { fsExist with handles := ["f"] }) := by
  have h := createHeapFile_FILEEXISTS_behavior fsExist "f" (by decide)
  rw [h]
  rfl

/-- C9: `startScan` with a NULL filter clears the internal filter and
returns OK regardless of the other arguments; with a filter present it
returns `BADSCANPARM` exactly on the claim's violation list, leaving the
whole handle state (predicate fields and cursor alike) unchanged, and
otherwise stores the five parameters and returns OK. -/
theorem startScan_validation (st : HFS) (offset_ length_ type_ : Int)
    (filter_ : Option (List Nat)) (op_ : Int) :
    (filter_ = none → startScanH st offset_ length_ type_ filter_ op_ =
        (Status.OK, { st with pred := { st.pred with filter := none } })) ∧
    (filter_.isSome →
      (badScanParmSpec offset_ length_ type_ op_ ↔
        startScanH st offset_ length_ type_ filter_ op_ = (Status.BADSCANPARM, st))) ∧
    (filter_.isSome → ¬ badScanParmSpec offset_ length_ type_ op_ →
      startScanH st offset_ length_ type_ filter_ op_ =
        (Status.OK, { st with pred := ⟨filter_, offset_, length_, type_, op_⟩ })) := by
  have hequiv : badScanParmSpec offset_ length_ type_ op_ ↔
      ((offset_ < 0 ∨ length_ < 1) ∨
        (type_ ≠ STRING ∧ type_ ≠ INTEGER ∧ type_ ≠ FLOAT) ∨
        ((type_ = INTEGER ∧ length_ ≠ 4) ∨ (type_ = FLOAT ∧ length_ ≠ 4)) ∨
        (op_ ≠ opLT ∧ op_ ≠ opLTE ∧ op_ ≠ opEQ ∧ op_ ≠ opGTE ∧ op_ ≠ opGT ∧ op_ ≠ opNE)) := by
    unfold badScanParmSpec
    tauto
  refine ⟨?_, ?_, ?_⟩
  · intro hn
    subst hn
    rfl
  · intro hs
    rcases filter_ with _ | fb
    · simp at hs
    · rw [hequiv]
      constructor
      · intro hv
        simp only [startScanH, startScan, Option.isNone_some, Bool.false_eq_true, if_false,
          if_pos hv]
      · intro hres
        by_contra hv
        simp only [startScanH, startScan, Option.isNone_some, Bool.false_eq_true, if_false,
          if_neg hv] at hres
        simp at hres
  · intro hs hv
    rcases filter_ with _ | fb
    · simp at hs
    · rw [hequiv] at hv
      simp only [startScanH, startScan, Option.isNone_some, Bool.false_eq_true, if_false,
        if_neg hv]

/-- C9 witness: a negative offset is rejected with `BADSCANPARM` and the
state is untouched; a valid INTEGER scan stores its parameters. -/
theorem startScan_validation_witness :
    startScanH initialHFS (-1) 4 INTEGER (some [0, 0, 0, 0]) opEQ =
      (Status.BADSCANPARM, initialHFS) ∧
    startScanH initialHFS 0 4 INTEGER (some [0, 0, 0, 0]) opEQ =
      (Status.OK, { initialHFS with pred := ⟨some [0, 0, 0, 0], 0, 4, INTEGER, opEQ⟩ }) := by
  have h1 := startScan_validation initialHFS (-1) 4 INTEGER (some [0, 0, 0, 0]) opEQ
  have h2 := startScan_validation initialHFS 0 4 INTEGER (some [0, 0, 0, 0]) opEQ
  have hbad : badScanParmSpec (-1) 4 INTEGER opEQ := by
    unfold badScanParmSpec; decide
  have hgood : ¬ badScanParmSpec 0 4 INTEGER opEQ := by
    unfold badScanParmSpec; decide
  exact ⟨(h1.2.1 (by decide)).mp hbad, h2.2.2 (by decide) hgood⟩

/-- C5 amended: `matchRec` returns true with no filter configured and
false when the window `[offset, offset + length)` reaches past
`rec.length`; otherwise it applies `op` at zero to a difference computed as
the **wrapping 32-bit** `int` subtraction of the decoded 4-byte windows
(INTEGER; the subsequent conversion to `float` preserves sign and zero), as
`strncmp` over `length` bytes (STRING, stopping at a common NUL), or as the
abstracted float subtraction (FLOAT).  Whenever the exact INTEGER
difference fits in the `int` range, this agrees with the claim's
exact-arithmetic reading `matchRecSpec`. -/
theorem matchRec_characterization (fsub : List Nat → List Nat → Int) (s : PredState)
    (rec : Record) :
    (s.filter = none → matchRec fsub s rec = true) ∧
    (s.filter.isSome → s.offset + s.length - 1 ≥ rec.length → matchRec fsub s rec = false) ∧
    (∀ fb, s.filter = some fb → s.offset + s.length - 1 < rec.length →
      ((s.type = INTEGER → matchRec fsub s rec =
          opSat s.op (wrap32 (int32LE ((rec.data.drop s.offset.toNat).take 4) -
            int32LE (fb.take 4)))) ∧
       (s.type = STRING → matchRec fsub s rec =
          opSat s.op (strncmpM s.length.toNat (rec.data.drop s.offset.toNat) fb)) ∧
       (s.type = FLOAT → matchRec fsub s rec =
          opSat s.op (fsub ((rec.data.drop s.offset.toNat).take 4) (fb.take 4))))) ∧
    (∀ fb, s.filter = some fb → s.offset + s.length - 1 < rec.length → s.type = INTEGER →
      -2 ^ 31 ≤ int32LE ((rec.data.drop s.offset.toNat).take 4) - int32LE (fb.take 4) →
      int32LE ((rec.data.drop s.offset.toNat).take 4) - int32LE (fb.take 4) < 2 ^ 31 →
      matchRec fsub s rec = matchRecSpec fsub s rec) := by
  refine ⟨?_, ?_, ?_, ?_⟩
  · intro h
    simp [matchRec, h]
  · intro hs hb
    rcases hf : s.filter with _ | fb
    · simp [hf] at hs
    · simp [matchRec, hf, if_pos hb]
  · intro fb hf hlt
    have hnb : ¬ (s.offset + s.length - 1 ≥ rec.length) := by omega
    refine ⟨?_, ?_, ?_⟩ <;> intro ht <;>
      simp [matchRec, hf, if_neg hnb, ht, INTEGER, FLOAT, STRING]
  · intro fb hf hlt ht h1 h2
    have hnb : ¬ (s.offset + s.length - 1 ≥ rec.length) := by omega
    have hw := wrap32_eq_self _ h1 h2
    simp [matchRec, matchRecSpec, hf, if_neg hnb, ht, INTEGER, hw]

/-- C5 witness: the INTEGER branch of `matchRec` evaluates to the
op-at-zero test of the wrapped difference on a concrete filter and record,
and a cleared filter matches everything. -/
theorem matchRec_characterization_witness :
    matchRec fsub0 psIntC recIntC =
      opSat psIntC.op (wrap32 (int32LE ((recIntC.data.drop psIntC.offset.toNat).take 4) -
        int32LE (([255, 255, 255, 255] : List Nat).take 4))) ∧
    matchRec fsub0 { psIntC with filter := none } recIntC = true := by
  have h := matchRec_characterization fsub0 psIntC recIntC
  have h2 := matchRec_characterization fsub0 { psIntC with filter := none } recIntC
  exact ⟨(h.2.2.1 [255, 255, 255, 255] (by decide) (by decide)).1 (by decide), h2.1 rfl⟩

/-- The page layer rejects a record fetch only with `INVALIDSLOTNO`. -/
theorem getRecordOpt_error (p : Page) (rid : RID) (e : Status)
    (h : p.getRecordOpt rid = Except.error e) : e = Status.INVALIDSLOTNO := by
  unfold Page.getRecordOpt at h
  split at h
  · split at h <;> simp_all
  · simp_all

/-- When `scanStep` finishes the scan, its status is OK or the page
layer's invalid-slot error, it adds no buffer call, and it returns the
entry state with at most the cursor advanced. -/
theorem scanStep_done_status (fsub : List Nat → List Nat → Int) (st' : HFS) (evs' : List Ev)
    (p : Page) (tmp : RID) (r : OpRes)
    (h : scanStep fsub st' evs' p tmp = StepOut.done r) :
    (r.status = OK ∨ r.status = INVALIDSLOTNO) ∧ r.evs = evs' ∧
      (r.st = st' ∨ r.st = { st' with curRec := tmp }) := by
  unfold scanStep at h
  rcases hg : p.getRecordOpt st'.curRec with e2 | rec
  · simp only [hg] at h
    cases h
    exact ⟨Or.inr (getRecordOpt_error p st'.curRec e2 hg), rfl, Or.inl rfl⟩
  · simp only [hg] at h
    split at h
    · cases h
      exact ⟨Or.inl rfl, rfl, Or.inr rfl⟩
    · cases h

/-- When `scanStep` loops, it adds no buffer call and only advances the
cursor. -/
theorem scanStep_next (fsub : List Nat → List Nat → Int) (st' : HFS) (evs' : List Ev)
    (p : Page) (tmp : RID) (st2 : HFS) (evs2 : List Ev)
    (h : scanStep fsub st' evs' p tmp = StepOut.next st2 evs2) :
    evs2 = evs' ∧ st2 = { st' with curRec := tmp } := by
  unfold scanStep at h
  rcases hg : p.getRecordOpt st'.curRec with e2 | rec
  · simp only [hg] at h
    cases h
  · simp only [hg] at h
    split at h
    · cases h
    · cases h
      exact ⟨rfl, rfl⟩

/-- Exhaustive description of one `scanNext` loop iteration: when it
finishes, either no buffer call was made and the status is OK, the
invalid-slot error or a bad-page-pointer, or no call was made and the
status is `FILEEOF` with the current page having no first record, or the
iteration crossed pages — unpinning the current page with the accumulated
flag and reading `p.nextPage` — and the outcome is the read failure status
`e` (page absent), `FILEEOF` (new page has no first record), or a
`scanStep` outcome.  When it loops, the dirty flag and store are untouched
and the only possible buffer calls are the page-crossing unpin/read
pair. -/
theorem scanNextIter_cases (fsub : List Nat → List Nat → Int) (e : Status) (st : HFS)
    (evs : List Ev) :
    (∀ r, scanNextIter fsub e st evs = StepOut.done r →
      (r.evs = evs ∧ (r.status = OK ∨ r.status = INVALIDSLOTNO ∨ r.status = BADPAGEPTR)) ∨
      (r.evs = evs ∧ r.status = FILEEOF ∧ r.st = st ∧
        ∃ q, lookupPage st.store st.curPageNo = some q ∧
          q.firstRecordOpt st.curPageNo = none) ∨
      (∃ p, lookupPage st.store st.curPageNo = some p ∧
        r.st.store = st.store ∧ r.st.curPageNo = p.nextPage ∧
        r.evs = evs ++ [Ev.unpin st.curPageNo st.curDirtyFlag, Ev.read p.nextPage] ∧
        ((r.status = e ∧ lookupPage st.store p.nextPage = none) ∨
         (r.status = FILEEOF ∧ ∃ q, lookupPage st.store p.nextPage = some q ∧
            q.firstRecordOpt p.nextPage = none) ∨
         (r.status = OK ∨ r.status = INVALIDSLOTNO)))) ∧
    (∀ st2 evs2, scanNextIter fsub e st evs = StepOut.next st2 evs2 →
      st2.curDirtyFlag = st.curDirtyFlag ∧ st2.store = st.store ∧
      (evs2 = evs ∨ ∃ x, evs2 = evs ++ [Ev.unpin st.curPageNo st.curDirtyFlag, Ev.read x])) := by
  constructor
  · intro r h
    unfold scanNextIter at h
    by_cases hpin : st.curPagePresent = false
    · rw [if_pos hpin] at h
      cases h
      exact Or.inl ⟨rfl, Or.inr (Or.inr rfl)⟩
    · rw [if_neg hpin] at h
      rcases hl : lookupPage st.store st.curPageNo with _ | p
      · simp only [hl] at h
        cases h
        exact Or.inl ⟨rfl, Or.inr (Or.inr rfl)⟩
      · simp only [hl] at h
        by_cases hnull : st.curRec = NULLRID
        · rw [if_pos hnull] at h
          rcases hfr : p.firstRecordOpt st.curPageNo with _ | tmp
          · simp only [hfr] at h
            cases h
            exact Or.inr (Or.inl ⟨rfl, rfl, rfl, p, rfl, hfr⟩)
          · simp only [hfr] at h
            obtain ⟨hstat, hevs, _⟩ := scanStep_done_status fsub st evs p tmp r h
            exact Or.inl ⟨hevs, by tauto⟩
        · rw [if_neg hnull] at h
          rcases hnr : p.nextRecordOpt st.curPageNo st.curRec with _ | tmp
          · simp only [hnr] at h
            rcases hl2 : lookupPage st.store p.nextPage with _ | p2
            · simp only [hl2] at h
              cases h
              exact Or.inr (Or.inr ⟨p, rfl, rfl, rfl, by simp, Or.inl ⟨rfl, hl2⟩⟩)
            · simp only [hl2] at h
              rcases hfr2 : p2.firstRecordOpt p.nextPage with _ | tmp
              · simp only [hfr2] at h
                cases h
                exact Or.inr (Or.inr ⟨p, rfl, rfl, rfl, by simp,
                  Or.inr (Or.inl ⟨rfl, p2, hl2, hfr2⟩)⟩)
              · simp only [hfr2] at h
                obtain ⟨hstat, hevs, hst⟩ := scanStep_done_status fsub _ _ p2 tmp r h
                refine Or.inr (Or.inr ⟨p, rfl, ?_, ?_, ?_, Or.inr (Or.inr hstat)⟩)
                · rcases hst with hst | hst <;> rw [hst]
                · rcases hst with hst | hst <;> rw [hst]
                · rw [hevs]
                  simp
          · simp only [hnr] at h
            obtain ⟨hstat, hevs, _⟩ := scanStep_done_status fsub st evs p tmp r h
            exact Or.inl ⟨hevs, by tauto⟩
  · intro st2 evs2 h
    unfold scanNextIter at h
    by_cases hpin : st.curPagePresent = false
    · rw [if_pos hpin] at h
      cases h
    · rw [if_neg hpin] at h
      rcases hl : lookupPage st.store st.curPageNo with _ | p
      · simp only [hl] at h
        cases h
      · simp only [hl] at h
        by_cases hnull : st.curRec = NULLRID
        · rw [if_pos hnull] at h
          rcases hfr : p.firstRecordOpt st.curPageNo with _ | tmp
          · simp only [hfr] at h
            cases h
          · simp only [hfr] at h
            obtain ⟨hevs2, hst2⟩ := scanStep_next fsub st evs p tmp st2 evs2 h
            subst hst2
            exact ⟨rfl, rfl, Or.inl hevs2⟩
        · rw [if_neg hnull] at h
          rcases hnr : p.nextRecordOpt st.curPageNo st.curRec with _ | tmp
          · simp only [hnr] at h
            rcases hl2 : lookupPage st.store p.nextPage with _ | p2
            · simp only [hl2] at h
              cases h
            · simp only [hl2] at h
              rcases hfr2 : p2.firstRecordOpt p.nextPage with _ | tmp
              · simp only [hfr2] at h
                cases h
              · simp only [hfr2] at h
                obtain ⟨hevs2, hst2⟩ := scanStep_next fsub _ _ p2 tmp st2 evs2 h
                subst hst2
                refine ⟨rfl, rfl, Or.inr ⟨p.nextPage, ?_⟩⟩
                rw [hevs2]
                simp
          · simp only [hnr] at h
            obtain ⟨hevs2, hst2⟩ := scanStep_next fsub st evs p tmp st2 evs2 h
            subst hst2
            exact ⟨rfl, rfl, Or.inl hevs2⟩

/-- Whenever `scanNext` returns `FILEEOF`, the page the scan is then
standing on has no first record — `FILEEOF` arises only from a failed
`firstRecord`, never from the `-1` end-of-chain link itself (whose read
failure is passed through as `e`). -/
theorem scanNextF_fileeof (fsub : List Nat → List Nat → Int) (e : Status)
    (he : e ≠ FILEEOF) :
    ∀ (f : Nat) (st : HFS) (evs : List Ev) (r : OpRes),
      scanNextF fsub e f st evs = some r → r.status = FILEEOF →
      ∃ q, lookupPage r.st.store r.st.curPageNo = some q ∧
        q.firstRecordOpt r.st.curPageNo = none := by
  intro f
  induction f with
  | zero =>
    intro st evs r h
    simp [scanNextF] at h
  | succ f ih =>
    intro st evs r h hF
    rw [show scanNextF fsub e (f + 1) st evs =
        (match scanNextIter fsub e st evs with
         | StepOut.done r2 => some r2
         | StepOut.next st2 evs2 => scanNextF fsub e f st2 evs2) from rfl] at h
    rcases hit : scanNextIter fsub e st evs with rd | ⟨st2, evs2⟩
    · rw [hit] at h
      simp only [Option.some.injEq] at h
      subst h
      rcases (scanNextIter_cases fsub e st evs).1 rd hit with
        ⟨_, hs⟩ | ⟨_, _, hst, q, hq, hfr⟩ | ⟨p, _, hstore, hcur, _, hrest⟩
      · rcases hs with hs | hs | hs <;> rw [hs] at hF <;> cases hF
      · rw [hst]
        exact ⟨q, hq, hfr⟩
      · rcases hrest with ⟨hs, _⟩ | ⟨_, q, hq, hfr⟩ | hs
        · rw [hs] at hF
          exact absurd hF he
        · rw [hstore, hcur]
          exact ⟨q, hq, hfr⟩
        · rcases hs with hs | hs <;> rw [hs] at hF <;> cases hF
    · rw [hit] at h
      exact ih st2 evs2 r h hF

/-- Every unpin emitted by `scanNext` beyond the events already
accumulated carries the scan's entry `curDirtyFlag`: the flag is never
written inside `scanNext` (in particular it is **not** cleared when the
scan crosses to a new page). -/
theorem scanNext_unpin_entry_flag (fsub : List Nat → List Nat → Int) (e : Status) :
    ∀ (f : Nat) (st : HFS) (evs : List Ev) (r : OpRes),
      scanNextF fsub e f st evs = some r →
      ∀ n d, Ev.unpin n d ∈ r.evs → Ev.unpin n d ∈ evs ∨ d = st.curDirtyFlag := by
  intro f
  induction f with
  | zero =>
    intro st evs r h
    simp [scanNextF] at h
  | succ f ih =>
    intro st evs r h n d hmem
    rw [show scanNextF fsub e (f + 1) st evs =
        (match scanNextIter fsub e st evs with
         | StepOut.done r2 => some r2
         | StepOut.next st2 evs2 => scanNextF fsub e f st2 evs2) from rfl] at h
    rcases hit : scanNextIter fsub e st evs with rd | ⟨st2, evs2⟩
    · rw [hit] at h
      simp only [Option.some.injEq] at h
      subst h
      rcases (scanNextIter_cases fsub e st evs).1 rd hit with
        ⟨hevs, _⟩ | ⟨hevs, _⟩ | ⟨p, _, _, _, hevs, _⟩
      · rw [hevs] at hmem
        exact Or.inl hmem
      · rw [hevs] at hmem
        exact Or.inl hmem
      · rw [hevs] at hmem
        rcases List.mem_append.mp hmem with hin | hin
        · exact Or.inl hin
        · simp only [List.mem_cons] at hin
          rcases hin with hin | hin | hin
          · cases hin
            exact Or.inr rfl
          · cases hin
          · cases hin
    · rw [hit] at h
      obtain ⟨hflag, _, hevs2⟩ := (scanNextIter_cases fsub e st evs).2 st2 evs2 hit
      rcases ih st2 evs2 r h n d hmem with hin | hd
      · rcases hevs2 with rfl | ⟨x, rfl⟩
        · exact Or.inl hin
        · rcases List.mem_append.mp hin with hin | hin
          · exact Or.inl hin
          · simp only [List.mem_cons] at hin
            rcases hin with hin | hin | hin
            · cases hin
              exact Or.inr rfl
            · cases hin
            · cases hin
      · rw [hflag] at hd
        exact Or.inr hd

/-- The only unpin the post-reposition insert emits is the NOSPACE path's
unpin of the (old) current page, carrying its accumulated flag. -/
theorem insertAtLast_unpins (cap : Nat) (st1 : HFS) (evs : List Ev) (rec : Record) :
    ∀ n d, Ev.unpin n d ∈ (insertAtLast cap st1 evs rec).evs →
      Ev.unpin n d ∈ evs ∨ (n = st1.curPageNo ∧ d = st1.curDirtyFlag) := by
  intro n d hmem
  unfold insertAtLast at hmem
  rcases h1 : lookupPage st1.store st1.curPageNo with _ | p
  · simp only [h1] at hmem
    exact Or.inl hmem
  · simp only [h1] at hmem
    rcases h2 : Page.insertRec cap p rec with _ | pr
    · simp only [h2] at hmem
      rcases h3 : Page.insertRec cap (Page.initPage st1.nextPageNo) rec with _ | pr2
      · simp only [h3] at hmem
        rcases List.mem_append.mp hmem with hin | hin
        · rcases List.mem_append.mp hin with hin2 | hin2
          · exact Or.inl hin2
          · simp only [List.mem_singleton] at hin2
            cases hin2
        · simp only [List.mem_singleton] at hin
          cases hin
          exact Or.inr ⟨rfl, rfl⟩
      · obtain ⟨p2, slot⟩ := pr2
        simp only [h3] at hmem
        rcases List.mem_append.mp hmem with hin | hin
        · rcases List.mem_append.mp hin with hin2 | hin2
          · exact Or.inl hin2
          · simp only [List.mem_singleton] at hin2
            cases hin2
        · simp only [List.mem_singleton] at hin
          cases hin
          exact Or.inr ⟨rfl, rfl⟩
    · obtain ⟨p2, slot⟩ := pr
      simp only [h2] at hmem
      exact Or.inl hmem

/-- C10: when `scanNext` hits end-of-page on the last page of the chain
(`nextPage = -1`), it unpins that page (with the accumulated flag) and then
asks the buffer manager to read page `-1`; whatever status `e` that read
produces is returned unchanged.  `FILEEOF` is returned only where a page's
`firstRecord` fails — the state a `FILEEOF` return leaves behind always
has a current page with no first record — never directly from detecting
the `-1` link. -/
theorem scanNext_end_of_chain_reads_minus_one (fsub : List Nat → List Nat → Int)
    (e : Status) (st : HFS) (fuel : Nat) (p : Page)
    (hpin : st.curPagePresent = true)
    (hp : lookupPage st.store st.curPageNo = some p)
    (hlast : p.nextPage = -1)
    (hcur : st.curRec ≠ NULLRID)
    (hend : p.nextRecordOpt st.curPageNo st.curRec = none)
    (hmiss : lookupPage st.store (-1) = none)
    (he : e ≠ Status.FILEEOF) :
    scanNextF fsub e (fuel + 1) st [] =
      some ⟨e, { st with curPageNo := -1 }, none,
        [Ev.unpin st.curPageNo st.curDirtyFlag, Ev.read (-1)]⟩ ∧
    (∀ f st0 evs0 r, scanNextF fsub e f st0 evs0 = some r → r.status = Status.FILEEOF →
      ∃ q, lookupPage r.st.store r.st.curPageNo = some q ∧
        q.firstRecordOpt r.st.curPageNo = none) := by
  constructor
  · have hiter : scanNextIter fsub e st [] =
        StepOut.done ⟨e, { st with curPageNo := -1 }, none,
          [Ev.unpin st.curPageNo st.curDirtyFlag, Ev.read (-1)]⟩ := by
      unfold scanNextIter
      rw [hpin]
      simp only [Bool.true_eq_false, if_false, hp]
      rw [if_neg hcur]
      simp only [hend, hlast, hmiss]
      simp
    rw [show scanNextF fsub e (fuel + 1) st [] =
        (match scanNextIter fsub e st [] with
         | StepOut.done r2 => some r2
         | StepOut.next st2 evs2 => scanNextF fsub e fuel st2 evs2) from rfl]
    rw [hiter]
  · exact scanNextF_fileeof fsub e he

/-- C10 witness: a one-page file with the cursor on its only record; the
next `scanNext` unpins page 2 clean and returns the buffer manager's
status for reading page `-1`. -/
theorem scanNext_end_of_chain_reads_minus_one_witness :
    scanNextF fsub0 Status.BADPAGEPTR 5 stAtEnd [] =
      some ⟨Status.BADPAGEPTR, { stAtEnd with curPageNo := -1 }, none,
        [Ev.unpin 2 false, Ev.read (-1)]⟩ := by
  have h := scanNext_end_of_chain_reads_minus_one fsub0 Status.BADPAGEPTR stAtEnd 4 pgOne
    (by decide) (by decide) (by decide) (by decide) (by decide) (by decide) (by decide)
  rw [h.1]
  decide

/-- C3 amended: all unpins performed by the modeled heap-layer operations
carry the handle's accumulated flags — `endScan`, `resetScan`, `scanNext`,
`insertRecord` and the `HeapFile` destructor pass `curDirtyFlag` (the
header unpin passes `hdrDirtyFlag`) — with the sole exception of the
`InsertFileScan` destructor, which always passes `dirty = true`.  (The
accumulated flag itself can disagree with "mutated since pinned": the
NOSPACE unpin precedes the flag update for the `setNextPage` mutation, and
`scanNext` never clears the flag after crossing pages, as the `scanNext`
clause here shows — its unpins all reuse the entry flag.) -/
theorem unpin_dirty_flag_discipline (st : HFS) :
    heapFileDtor st = (if st.curPagePresent then [Ev.unpin st.curPageNo st.curDirtyFlag] else [])
        ++ [Ev.unpin st.headerPageNo st.hdrDirtyFlag, Ev.close] ∧
    insertFileScanDtor st = (if st.curPagePresent then [Ev.unpin st.curPageNo true] else [])
        ++ [Ev.unpin st.headerPageNo st.hdrDirtyFlag, Ev.close] ∧
    (endScan st).evs = (if st.curPagePresent then [Ev.unpin st.curPageNo st.curDirtyFlag] else []) ∧
    (∀ e n d, Ev.unpin n d ∈ (resetScan e st).evs → n = st.curPageNo ∧ d = st.curDirtyFlag) ∧
    (∀ e cap rec n d, Ev.unpin n d ∈ (insertRecord e cap st rec).evs →
      (n = st.curPageNo ∧ d = st.curDirtyFlag) ∨ (n = st.hdr.lastPage ∧ d = false)) ∧
    (∀ fsub e f evs r, scanNextF fsub e f st evs = some r →
      ∀ n d, Ev.unpin n d ∈ r.evs → Ev.unpin n d ∈ evs ∨ d = st.curDirtyFlag) := by
  refine ⟨rfl, ?_, ?_, ?_, ?_, ?_⟩
  · unfold insertFileScanDtor heapFileDtor
    by_cases hp : st.curPagePresent <;> simp [hp]
  · unfold endScan
    by_cases hp : st.curPagePresent <;> simp [hp]
  · intro e n d hmem
    unfold resetScan at hmem
    by_cases hm : st.markedPageNo ≠ st.curPageNo
    · rw [if_pos hm] at hmem
      rcases hl : lookupPage st.store st.markedPageNo with _ | p2 <;>
        by_cases hp : st.curPagePresent <;>
        simp only [hl] at hmem <;>
        simp [hp] at hmem <;>
        exact hmem
    · rw [if_neg hm] at hmem
      simp at hmem
  · intro e cap rec n d hmem
    unfold insertRecord at hmem
    by_cases h1 : uint32 rec.length > cap
    · rw [if_pos h1] at hmem
      simp at hmem
    · rw [if_neg h1] at hmem
      by_cases h2 : st.curPageNo ≠ st.hdr.lastPage
      · rw [if_pos h2] at hmem
        rcases h3 : lookupPage st.store st.hdr.lastPage with _ | pL
        · simp only [h3] at hmem
          simp only [List.mem_cons, List.mem_singleton] at hmem
          rcases hmem with hmem | hmem | hmem
          · cases hmem
            exact Or.inl ⟨rfl, rfl⟩
          · cases hmem
          · cases hmem
        · simp only [h3] at hmem
          rcases insertAtLast_unpins cap
              { st with curPageNo := st.hdr.lastPage, curPagePresent := true
                        curDirtyFlag := false }
              [Ev.unpin st.curPageNo st.curDirtyFlag, Ev.read st.hdr.lastPage] rec n d hmem with
            hin | hin
          · simp only [List.mem_cons, List.mem_singleton] at hin
            rcases hin with hin | hin | hin
            · cases hin
              exact Or.inl ⟨rfl, rfl⟩
            · cases hin
            · cases hin
          · exact Or.inr hin
      · rw [if_neg h2] at hmem
        rcases insertAtLast_unpins cap st [] rec n d hmem with hin | hin
        · cases hin
        · exact Or.inl hin
  · exact fun fsub e f evs r h n d hmem => scanNext_unpin_entry_flag fsub e f st evs r h n d hmem

/-- C3 witness: applying the discipline theorem at a state whose
`resetScan` must unpin the clean current page 2 recovers that the unpin
named page 2 with `dirty = false`; the `HeapFile` destructor clause at the
same state gives its exact unpin list. -/
theorem unpin_dirty_flag_discipline_witness :
    ((2 : Int) = stResetW.curPageNo ∧ false = stResetW.curDirtyFlag) ∧
    heapFileDtor stResetW =
      [Ev.unpin 2 false, Ev.unpin 1 false, Ev.close] := by
  have h := unpin_dirty_flag_discipline stResetW
  refine ⟨h.2.2.2.1 Status.BADPAGEPTR 2 false (by decide), ?_⟩
  rw [h.1]
  decide

/-- Building a one-page chain. -/
theorem isChainB_single_of (store : List (Int × Page)) (s n : Int) (p : Page)
    (hs : s = n) (hl : lookupPage store n = some p) (hend : p.nextPage = -1) :
    isChainB store s [n] = true := by
  have h1 : isChainB store s [n] = (decide (s = n) && decide (p.nextPage = -1)) := by
    conv_lhs => rw [isChainB, hl]
  rw [h1, hs, hend]
  simp

/-- Building a longer chain from its head link and tail chain. -/
theorem isChainB_cons_of (store : List (Int × Page)) (s n m : Int) (rest : List Int)
    (p : Page) (hs : s = n) (hl : lookupPage store n = some p) (hnext : p.nextPage = m)
    (hch : isChainB store m (m :: rest) = true) :
    isChainB store s (n :: m :: rest) = true := by
  have h1 : isChainB store s (n :: m :: rest) =
      (decide (s = n) && (decide (p.nextPage = m) && isChainB store m (m :: rest))) := by
    conv_lhs => rw [isChainB, hl]
  rw [h1, hs, hnext, hch]
  simp

/-- A successful page-level insert does not change the page's chain
link. -/
theorem insertRec_nextPage (cap : Nat) (p : Page) (rec : Record) (p2 : Page) (slot : Nat)
    (h : p.insertRec cap rec = some (p2, slot)) : p2.nextPage = p.nextPage := by
  unfold Page.insertRec at h
  split at h
  · simp only [Option.some.injEq, Prod.mk.injEq] at h
    rw [← h.1]
  · cases h

/-- Every page number on a chain is present in the store. -/
theorem isChainB_mem_lookup (store : List (Int × Page)) :
    ∀ (l : List Int) (s : Int), isChainB store s l = true →
      ∀ n ∈ l, (lookupPage store n).isSome := by
  intro l
  induction l with
  | nil =>
    intro s h
    simp [isChainB] at h
  | cons n2 rest ih =>
    intro s h m hm
    simp only [isChainB, Bool.and_eq_true, decide_eq_true_eq] at h
    obtain ⟨hs, h2⟩ := h
    rcases hl : lookupPage store n2 with _ | p
    · simp only [hl] at h2
      simp at h2
    · rcases List.mem_cons.mp hm with rfl | hm2
      · simp [hl]
      · cases rest with
        | nil => cases hm2
        | cons m2 rest2 =>
          simp only [hl, Bool.and_eq_true, decide_eq_true_eq] at h2
          exact ih m2 h2.2 m hm2

/-- Updating a stored page without changing its `nextPage` link preserves
every chain. -/
theorem isChainB_update_sameNext (store : List (Int × Page)) (k : Int) (pOld pNew : Page)
    (hk : lookupPage store k = some pOld) (hnext : pNew.nextPage = pOld.nextPage) :
    ∀ (l : List Int) (s : Int), isChainB store s l = true →
      isChainB (updatePage store k pNew) s l = true := by
  intro l
  induction l with
  | nil =>
    intro s h
    simp [isChainB] at h
  | cons n rest ih =>
    intro s h
    simp only [isChainB, Bool.and_eq_true, decide_eq_true_eq] at h ⊢
    obtain ⟨hs, h2⟩ := h
    refine ⟨hs, ?_⟩
    rcases hl : lookupPage store n with _ | p
    · simp only [hl] at h2
      simp at h2
    · simp only [hl] at h2
      have hpn : ∃ p2, lookupPage (updatePage store k pNew) n = some p2 ∧
          p2.nextPage = p.nextPage := by
        by_cases hnk : n = k
        · subst hnk
          have hpq : p = pOld := by
            rw [hk] at hl
            exact (Option.some.inj hl).symm
          refine ⟨pNew, lookupPage_update_self store n pNew (by rw [hl]; rfl), ?_⟩
          rw [hnext, hpq]
        · exact ⟨p, by
            rw [lookupPage_update_ne store k n pNew (fun hc => hnk hc.symm)]
            exact hl, rfl⟩
      obtain ⟨p2, hp2, hp2n⟩ := hpn
      simp only [hp2]
      cases rest with
      | nil =>
        simp only [decide_eq_true_eq] at h2 ⊢
        rw [hp2n]
        exact h2
      | cons m rest2 =>
        simp only [Bool.and_eq_true, decide_eq_true_eq] at h2 ⊢
        exact ⟨by rw [hp2n]; exact h2.1, ih m h2.2⟩

/-- Dropping the head of a two-or-more-element list keeps the last
element. -/
theorem getLast?_cons_consM {α : Type} (a b : α) (l : List α) :
    (a :: b :: l).getLast? = (b :: l).getLast? := by
  simp [List.getLast?_cons_cons]

/-- Extending a chain: link the chain's last page `m` to a fresh page
`newN` (absent from the chain) whose own link is `-1`, and the chain grows
by exactly that page. -/
theorem isChainB_extend (store : List (Int × Page)) (newN : Int) (pN q : Page)
    (hpN : pN.nextPage = -1) (hq : q.nextPage = newN) (m : Int) :
    ∀ (l : List Int) (s : Int), isChainB store s l = true → l.getLast? = some m →
      l.Nodup → (∀ n ∈ l, n ≠ newN) →
      isChainB (updatePage ((newN, pN) :: store) m q) s (l ++ [newN]) = true := by
  intro l
  induction l with
  | nil =>
    intro s h
    simp [isChainB] at h
  | cons n rest ih =>
    intro s h hlast hnd hfresh
    simp only [isChainB, Bool.and_eq_true, decide_eq_true_eq] at h
    obtain ⟨hs, h2⟩ := h
    rcases hl : lookupPage store n with _ | p
    · simp only [hl] at h2
      simp at h2
    · simp only [hl] at h2
      have hne : n ≠ newN := hfresh n (by simp)
      cases rest with
      | nil =>
        have hm : m = n := by
          simp only [List.getLast?_singleton, Option.some.injEq] at hlast
          exact hlast.symm
        subst hm
        have hlk : lookupPage (updatePage ((newN, pN) :: store) m q) m = some q := by
          apply lookupPage_update_self
          rw [lookupPage_cons, if_neg (fun hc => hne hc.symm), hl]
          rfl
        have hlk2 : lookupPage (updatePage ((newN, pN) :: store) m q) newN = some pN := by
          rw [lookupPage_update_ne _ m newN q hne, lookupPage_cons, if_pos rfl]
        rw [List.cons_append, List.nil_append]
        exact isChainB_cons_of _ s m newN [] q hs hlk hq
          (isChainB_single_of _ newN newN pN rfl hlk2 hpN)
      | cons m2 rest2 =>
        simp only [Bool.and_eq_true, decide_eq_true_eq] at h2
        obtain ⟨hpm2, hch2⟩ := h2
        have hlast2 : (m2 :: rest2).getLast? = some m := by
          rw [← getLast?_cons_consM n m2 rest2]
          exact hlast
        have hmem_m : m ∈ m2 :: rest2 := mem_of_getLast?M hlast2
        have hn_ne_m : n ≠ m := by
          intro hcon
          subst hcon
          exact (List.nodup_cons.mp hnd).1 hmem_m
        have hlkn : lookupPage (updatePage ((newN, pN) :: store) m q) n = some p := by
          rw [lookupPage_update_ne _ m n q (fun hc => hn_ne_m hc.symm),
            lookupPage_cons, if_neg (fun hc => hne hc.symm)]
          exact hl
        have hch2u := ih m2 hch2 hlast2 (List.nodup_cons.mp hnd).2
          (fun x hx => hfresh x (List.mem_cons_of_mem _ hx))
        rw [List.cons_append] at hch2u
        rw [List.cons_append, List.cons_append]
        exact isChainB_cons_of _ s n m2 (rest2 ++ [newN]) p hs hlkn hpm2 hch2u

/-- The post-reposition insert preserves the page-chain invariant when it
succeeds: the in-page path only rewrites slots of the last page, and the
NOSPACE path appends the freshly allocated page to the chain while
incrementing `pageCnt` and moving `lastPage`. -/
theorem insertAtLast_preserves (cap : Nat) (st1 : HFS) (evs : List Ev) (rec : Record)
    (hinv : chainInv st1) (hcur : st1.curPageNo = st1.hdr.lastPage)
    (hok : (insertAtLast cap st1 evs rec).status = OK) :
    chainInv (insertAtLast cap st1 evs rec).st := by
  obtain ⟨⟨l, hch, hlen, hlast, hnd⟩, hkeys⟩ := hinv
  unfold insertAtLast at hok ⊢
  rcases h1 : lookupPage st1.store st1.curPageNo with _ | p
  · simp only [h1] at hok
    simp at hok
  · simp only [h1] at hok ⊢
    rcases h2 : Page.insertRec cap p rec with _ | pr
    · rcases h3 : Page.insertRec cap (Page.initPage st1.nextPageNo) rec with _ | pr2
      · simp only [h2, h3] at hok
        simp at hok
      · obtain ⟨p3, slot3⟩ := pr2
        simp only [h2, h3] at hok ⊢
        have hfresh : ∀ x ∈ l, x ≠ st1.nextPageNo := by
          intro x hx
          have hsome := isChainB_mem_lookup st1.store l st1.hdr.firstPage hch x hx
          rcases hlx : lookupPage st1.store x with _ | px
          · rw [hlx] at hsome
            simp at hsome
          · have hb := hkeys (x, px) (lookupPage_mem st1.store x px hlx)
            intro hcon
            rw [hcon] at hb
            exact lt_irrefl _ hb
        have hm_mem : st1.hdr.lastPage ∈ l := mem_of_getLast?M hlast
        have hm_ne : st1.hdr.lastPage ≠ st1.nextPageNo := hfresh _ hm_mem
        have hlastm : l.getLast? = some st1.curPageNo := by
          rw [hcur]
          exact hlast
        have hstep1 : isChainB
            (updatePage ((st1.nextPageNo, Page.initPage st1.nextPageNo) :: st1.store)
              st1.curPageNo { p with nextPage := st1.nextPageNo })
            st1.hdr.firstPage (l ++ [st1.nextPageNo]) = true :=
          isChainB_extend st1.store st1.nextPageNo (Page.initPage st1.nextPageNo)
            { p with nextPage := st1.nextPageNo } rfl rfl st1.curPageNo l st1.hdr.firstPage
            hch hlastm hnd hfresh
        have hlkB : lookupPage
            (updatePage ((st1.nextPageNo, Page.initPage st1.nextPageNo) :: st1.store)
              st1.curPageNo { p with nextPage := st1.nextPageNo }) st1.nextPageNo =
            some (Page.initPage st1.nextPageNo) := by
          rw [lookupPage_update_ne _ _ _ _ (by rw [hcur]; exact hm_ne), lookupPage_cons,
            if_pos rfl]
        have hstep2 := isChainB_update_sameNext _ st1.nextPageNo
          (Page.initPage st1.nextPageNo) p3 hlkB
          (insertRec_nextPage cap _ rec p3 slot3 h3) (l ++ [st1.nextPageNo])
          st1.hdr.firstPage hstep1
        constructor
        · refine ⟨l ++ [st1.nextPageNo], hstep2, ?_, ?_, ?_⟩
          · simp only [List.length_append, List.length_singleton]
            push_cast
            omega
          · rw [List.getLast?_concat]
          · exact List.Nodup.append hnd (List.nodup_singleton _)
              (fun x hx hx2 => hfresh x hx (by simpa using hx2))
        · intro kp hkp
          obtain ⟨e1, he1, hk1⟩ := mem_updatePage_keys _ st1.nextPageNo p3 kp hkp
          obtain ⟨e0, he0, hk0⟩ := mem_updatePage_keys _ st1.curPageNo
            { p with nextPage := st1.nextPageNo } e1 he1
          rcases List.mem_cons.mp he0 with he0' | he0'
          · rw [hk1, hk0, he0']
            simp
          · have hb := hkeys e0 he0'
            rw [hk1, hk0]
            show e0.1 < st1.nextPageNo + 1
            omega
    · obtain ⟨p2, slot⟩ := pr
      simp only [h2] at hok ⊢
      constructor
      · exact ⟨l,
          isChainB_update_sameNext st1.store st1.curPageNo p p2 h1
            (insertRec_nextPage cap p rec p2 slot h2) l st1.hdr.firstPage hch,
          hlen, hlast, hnd⟩
      · intro kp hkp
        obtain ⟨e0, he0, hkeq⟩ := mem_updatePage_keys st1.store st1.curPageNo p2 kp hkp
        rw [hkeq]
        exact hkeys e0 he0

/-- A successful `insertRecord` preserves the page-chain invariant. -/
theorem insertRecord_preserves_chainInv (e : Status) (cap : Nat) (st : HFS) (rec : Record)
    (hinv : chainInv st) (hok : (insertRecord e cap st rec).status = OK) :
    chainInv (insertRecord e cap st rec).st := by
  unfold insertRecord at hok ⊢
  by_cases h1 : uint32 rec.length > cap
  · rw [if_pos h1] at hok
    simp at hok
  · rw [if_neg h1] at hok ⊢
    by_cases h2 : st.curPageNo ≠ st.hdr.lastPage
    · rw [if_pos h2] at hok ⊢
      rcases h3 : lookupPage st.store st.hdr.lastPage with _ | pL
      · simp only [h3] at hok ⊢
        exact hinv
      · simp only [h3] at hok ⊢
        exact insertAtLast_preserves cap _ _ rec hinv rfl hok
    · rw [if_neg h2] at hok ⊢
      push_neg at h2
      exact insertAtLast_preserves cap st [] rec hinv h2 hok

/-- C4: in every handle state reachable from `createHeapFile` by
successful `insertRecord` calls, `headerPage.pageCnt` equals the length of
the page chain that starts at `headerPage.firstPage`, follows `nextPage`
links, and ends at `headerPage.lastPage`, whose `nextPage` is `-1`
(`isChainB` demands the terminal `-1`); `createHeapFile` establishes this
with `pageCnt = 1` and the single data page, and the NOSPACE path of
`insertRecord` preserves it by linking the fresh page, moving `lastPage`
and incrementing `pageCnt`. -/
theorem pageCnt_eq_chain_length (e : Status) (cap : Nat) (st : HFS)
    (h : Reach e cap st) : pageChainOK st := by
  have hinv : chainInv st := by
    induction h with
    | init =>
      constructor
      · exact ⟨[2], by decide, by decide, by decide, by decide⟩
      · intro kp hkp
        simp only [initialHFS, List.mem_singleton] at hkp
        subst hkp
        decide
    | insert st2 rec2 hre hok ih =>
      exact insertRecord_preserves_chainInv e cap st2 rec2 ih hok
  obtain ⟨⟨l, h1, h2, h3, _⟩, _⟩ := hinv
  exact ⟨l, h1, h2, h3⟩

/-- C4 witness: the invariant at the freshly created file — chain `[2]`,
one page, `lastPage = 2`. -/
theorem pageCnt_eq_chain_length_witness : pageChainOK initialHFS :=
  pageCnt_eq_chain_length Status.BADPAGEPTR 1004 initialHFS Reach.init

end HeapFileM
